import Mathlib

/-!
Verification development for the CNAB quiz system: a shallow embedding of
the document-to-record extraction pipeline (build_db.py), the answer
grading engine and the deterministic sampler (GUI/src/quiz_core.py), with
theorems settling the specification's claims about them.

Python strings are modelled as lists of characters; Python `None` becomes
`Option`; SQLite rows become a list of records; fallible operations return
`Except`.
-/

set_option autoImplicit false

namespace CNAB

/-- Strings of the modelled program: Python `str` as a list of characters. -/
abbrev Str := List Char

/-- Python `s.strip()`: drop leading and trailing whitespace. -/
def trim (l : Str) : Str :=
  ((l.dropWhile Char.isWhitespace).reverse.dropWhile Char.isWhitespace).reverse

/-- Python `s.rstrip()`: drop trailing whitespace. -/
def rstrip (l : Str) : Str :=
  (l.reverse.dropWhile Char.isWhitespace).reverse

/-- Python `s.upper()` (ASCII letters). -/
def upper (l : Str) : Str := l.map Char.toUpper

/-- Python `s.lower()` (ASCII letters). -/
def lower (l : Str) : Str := l.map Char.toLower

/-- Replace every maximal run of whitespace by a single space, as
`re.sub(r"\s+", " ", s)` does. -/
def collapseWs : Str → Str
  | [] => []
  | [c] => if c.isWhitespace then [' '] else [c]
  | c :: d :: rest =>
    if c.isWhitespace then
      (if d.isWhitespace then collapseWs (d :: rest)
       else ' ' :: collapseWs (d :: rest))
    else c :: collapseWs (d :: rest)

/-- quiz_core.normalize: collapse whitespace runs of the stripped string to
single spaces and lowercase the result. -/
def normalize (l : Str) : Str := (collapseWs (trim l)).map Char.toLower

/-- Whether `needle` occurs starting at index `i` of `hay`. -/
def startsWithAt (needle hay : Str) (i : Nat) : Bool :=
  ((hay.drop i).take needle.length) == needle

/-- Index of the first occurrence of `needle` in `hay` (the position Python
`hay.find(needle)` and `hay.split(needle, 1)` use). -/
def firstSubIdx (needle hay : Str) : Option Nat :=
  (List.range (hay.length + 1)).find? (fun i => startsWithAt needle hay i)

/-- Python `needle in hay` substring test. -/
def containsSub (needle hay : Str) : Bool := (firstSubIdx needle hay).isSome

/-- Everything after the first occurrence of `needle` in `hay`:
Python `hay.split(needle, 1)[1]` when the needle is present. -/
def afterMarker (needle hay : Str) : Str :=
  match firstSubIdx needle hay with
  | some i => hay.drop (i + needle.length)
  | none => []

/-! ### The grading engine (GUI/src/quiz_core.py) -/

/-- QuestionRecord / the QA dataclass: one stored question with its two
verbatim texts and the two optional derived grading keys. -/
structure QA where
  qnum : Nat
  question_text : Str
  answer_text : Str
  answer_value : Option Str
  answer_option : Option Str
deriving DecidableEq

/-- Python truthiness of an optional string: `None` and `""` are falsy. -/
def optTruthy : Option Str → Bool
  | none => false
  | some s => !s.isEmpty

/-- The multiple-choice branch of is_correct: the user answer (already
stripped) is compared, uppercased, against the stripped uppercased stored
option letter; every non-matching input falls to `return False`. -/
def gradeOptionLetter (ua opt : Str) : Bool :=
  if upper ua == upper (trim opt) then true
  else if ua.length == 1 && ua.all Char.isAlpha then false
  else false

/-- Whether the question text demands a specific ordering of a multi-part
answer: it contains "alphabetical order" or "reverse alphabetical"
case-insensitively. -/
def orderRequired (qt : Str) : Bool :=
  containsSub (("alphabetical order").toList) (lower qt) ||
  containsSub (("reverse alphabetical").toList) (lower qt)

/-- Python `s.split(",")`. -/
def splitComma : Str → List Str
  | [] => [[]]
  | c :: cs =>
    if c == ',' then [] :: splitComma cs
    else
      match splitComma cs with
      | [] => [[c]]
      | p :: ps => (c :: p) :: ps

/-- quiz_core._split_csv_list: split on commas, strip each piece, drop
pieces that are empty after stripping. -/
def splitCsv (s : Str) : List Str :=
  ((splitComma s).map trim).filter (fun p => !p.isEmpty)

/-- Python `set(a) == set(b)` for lists of strings. -/
def listSetEq (a b : List Str) : Bool :=
  a.all (fun x => b.contains x) && b.all (fun x => a.contains x)

/-- Set comparison of the two comma-split collections under the active case
policy (normalize both sides when case-insensitive). -/
def partsSetEq (user exp : List Str) (cs : Bool) : Bool :=
  if cs then listSetEq user exp
  else listSetEq (user.map normalize) (exp.map normalize)

/-- The exact whole-string comparison against answer_value: trimmed equality
when case-sensitive, normalize-equality otherwise. -/
def exactValueMatch (ua av : Str) (cs : Bool) : Bool :=
  if cs then ua == trim av else normalize ua == normalize av

/-- The answer_value step of is_correct: optional order-insensitive
comma-list set comparison, then the exact comparison. Returns whether any
of its comparisons fired. -/
def valueStep (ua av qt : Str) (cs : Bool) : Bool :=
  let setHit :=
    if !orderRequired qt && av.contains ',' && ua.contains ',' then
      partsSetEq (splitCsv ua) (splitCsv av) cs
    else false
  if setHit then true else exactValueMatch ua av cs

/-- Word characters of the regex `\b` boundary (`\w`): alphanumerics and
underscore. -/
def isWordChar (c : Char) : Bool := c.isAlphanum || c == '_'

/-- Whether the character at index `i` of `s` is a word character
(out-of-range positions count as non-word). -/
def wordCharAt (s : Str) (i : Nat) : Bool := isWordChar (s.getD i ' ')

/-- A regex `\b` word boundary at position `i` of `s`: the word-ness of the
two surrounding positions differs (the position before index 0 is
non-word). -/
def boundaryAt (s : Str) (i : Nat) : Bool :=
  (if i == 0 then false else wordCharAt s (i - 1)) != wordCharAt s i

/-- Python `re.search(rf"\b{re.escape(pat)}\b", s) is not None`: the literal
`pat` occurs somewhere in `s` with a word boundary on each side. -/
def wbMatch (pat s : Str) : Bool :=
  (List.range (s.length + 1)).any
    (fun i => startsWithAt pat s i && boundaryAt s i && boundaryAt s (i + pat.length))

/-- The fallback step of is_correct: whole-word/phrase search of the user
answer inside answer_text, rejecting candidates shorter than 3 characters;
both sides are normalized in case-insensitive mode. -/
def fallbackMatch (ua atext : Str) (cs : Bool) : Bool :=
  if cs then
    (if ua.length < 3 then false else wbMatch ua atext)
  else
    let uan := normalize ua
    let atn := normalize atext
    if uan.length < 3 then false else wbMatch uan atn

/-- quiz_core.is_correct: grade one user answer against one record under
the case-sensitivity flag, in the fixed priority order of the source
(empty answer, option letter, answer_value comparisons, text fallback). -/
def is_correct (ua0 : Str) (qa : QA) (cs : Bool) : Bool :=
  let ua := trim ua0
  if ua.isEmpty then false
  else if optTruthy qa.answer_option then
    gradeOptionLetter ua (qa.answer_option.getD [])
  else if optTruthy qa.answer_value &&
          valueStep ua (qa.answer_value.getD []) qa.question_text cs then true
  else fallbackMatch ua qa.answer_text cs

/-! ### The document parser (build_db.py, parse_docx) -/

/-- Digits of a decimal literal folded into a number, as `int(...)` reads
the regex group. -/
def natOfDigits (ds : Str) : Nat :=
  ds.foldl (fun n c => 10 * n + (c.toNat - 48)) 0

/-- Regex `\s+` at the front: requires at least one whitespace character and
consumes the whole run. -/
def ws1 : Str → Option Str
  | [] => none
  | c :: cs => if c.isWhitespace then some (cs.dropWhile Char.isWhitespace) else none

/-- Regex `\d+` at the front: at least one digit, maximal run, returning its
value and the remainder. -/
def digits1 (l : Str) : Option (Nat × Str) :=
  let ds := l.takeWhile Char.isDigit
  if ds.isEmpty then none else some (natOfDigits ds, l.dropWhile Char.isDigit)

/-- Case-insensitive literal at the front of the input (`pre` given in
lowercase). -/
def stripPrefixCI (pre l : Str) : Option Str :=
  if (l.take pre.length).map Char.toLower == pre then some (l.drop pre.length)
  else none

/-- Q_MARKER_RE: `^Question\s+(\d+)\s+of\s+(\d+)\s*$`, case-insensitive,
matched against the stripped line; yields the question number. -/
def qMarkerNum? (l0 : Str) : Option Nat := do
  let l := trim l0
  let r1 ← stripPrefixCI (("question").toList) l
  let r2 ← ws1 r1
  let (n, r3) ← digits1 r2
  let r4 ← ws1 r3
  let r5 ← stripPrefixCI (("of").toList) r4
  let r6 ← ws1 r5
  let (_, r7) ← digits1 r6
  if r7.all Char.isWhitespace then some n else none

/-- Indices of the paragraph lines matching the question-marker pattern. -/
def qIndices (ps : List Str) : List Nat :=
  (List.range ps.length).filter (fun i => (qMarkerNum? (ps.getD i [])).isSome)

/-- Consecutive marker indices paired into block bounds; the last block
extends to the end of the document. -/
def blockBounds : List Nat → Nat → List (Nat × Nat)
  | [], _ => []
  | [a], len => [(a, len)]
  | a :: b :: rest, len => (a, b) :: blockBounds (b :: rest) len

/-- Python `ps[a:b]`. -/
def sliceList (ps : List Str) (a b : Nat) : List Str := (ps.take b).drop a

/-- The document cut into question blocks: each block runs from one
question-marker line up to the next (paragraphs are first rstripped, as in
the `paras` list comprehension). -/
def blockSlices (paras : List Str) : List (List Str) :=
  let ps := paras.map rstrip
  (blockBounds (qIndices ps) ps.length).map (fun ab => sliceList ps ab.1 ab.2)

/-- The literal answer-marker token. -/
def answerMarker : Str := ("[+] Answer>").toList

/-- Python `next((j for j, x in enumerate(ls) if p x), None)`. -/
def findFirstIdx (p : Str → Bool) : List Str → Option Nat
  | [] => none
  | l :: ls => if p l then some 0 else (findFirstIdx p ls).map (fun j => j + 1)

/-- A separator line: its stripped form is nonempty, consists only of `=`
characters (`set(line.strip()) == {"="}`) and is longer than 10. -/
def isSepLine (l : Str) : Bool :=
  let t := trim l
  !t.isEmpty && t.all (fun c => c == '=') && decide (10 < t.length)

/-- Truncate the answer lines at the first separator line (exclusive), if
any. -/
def truncAtSep (ls : List Str) : List Str :=
  match findFirstIdx isSepLine ls with
  | some j => ls.take j
  | none => ls

/-- A blank line: stripped to emptiness. -/
def isBlankLine (l : Str) : Bool := (trim l).isEmpty

/-- The `while ls and ls[-1].strip() == "": ls.pop()` loop: drop trailing
blank lines. -/
def dropTrailingBlanks (ls : List Str) : List Str :=
  (ls.reverse.dropWhile isBlankLine).reverse

/-- Python `"\n".join(ls)`. -/
def joinNl : List Str → Str
  | [] => []
  | [l] => l
  | l :: l2 :: ls => l ++ '\n' :: joinNl (l2 :: ls)

/-- Left half of Python `s.strip("\n")`. -/
def lstripNl (l : Str) : Str := l.dropWhile (fun c => c == '\n')

/-- Python `s.strip("\n")`: drop newline characters from both ends. -/
def stripNl (l : Str) : Str :=
  ((lstripNl l).reverse.dropWhile (fun c => c == '\n')).reverse

/-- One stored segment text: trailing blank lines dropped, lines joined
with newlines, boundary newlines stripped — the composite the parser
applies to both the question segment and the answer segment. -/
def segText (ls : List Str) : Str := stripNl (joinNl (dropTrailingBlanks ls))

/-- The derived-key trigger phrase. -/
def triggerPhrase : Str := ("the correct answer is").toList

/-- Whether the trigger phrase occurs at index `i` of `l2`
(case-insensitively) followed by at least one whitespace character, as
`re.search(r"the correct answer is\s+(.*)$", l2, re.IGNORECASE)` requires
at a match position. -/
def phraseWsAt (l2 : Str) (i : Nat) : Bool :=
  ((l2.drop i).take triggerPhrase.length).map Char.toLower == triggerPhrase &&
  (match l2.drop (i + triggerPhrase.length) with
   | [] => false
   | c :: _ => c.isWhitespace)

/-- The capture group of the trigger regex at the leftmost match: the text
after the whitespace run following the phrase; `none` when the line has no
qualifying occurrence. -/
def findRest (l2 : Str) : Option Str :=
  match (List.range (l2.length + 1)).find? (fun i => phraseWsAt l2 i) with
  | some i => some ((l2.drop (i + triggerPhrase.length)).dropWhile Char.isWhitespace)
  | none => none

/-- Regex `^(.*)\s+\(([A-Z])\)\s*$` on an already-stripped `rest`: the
string ends in `(<single uppercase letter>)` directly preceded by
whitespace; yields the stripped greedy group 1 and the letter. -/
def matchOptForm (r : Str) : Option (Str × Char) :=
  let n := r.length
  if 4 ≤ n && r.getD (n - 1) ' ' == ')' && (r.getD (n - 2) ' ').isUpper &&
     r.getD (n - 3) ' ' == '(' && (r.getD (n - 4) ' ').isWhitespace then
    some (trim (r.take (n - 4)), r.getD (n - 2) ' ')
  else none

/-- Regex `^(.*)\s+\((.*)\)\s*$` on an already-stripped `rest`: the string
ends in `)` and some earlier `(` is directly preceded by whitespace; the
greedy group 1 picks the rightmost such `(`. Yields the stripped group 1
and the stripped parenthesized text. -/
def matchParForm (r : Str) : Option (Str × Str) :=
  let n := r.length
  if r.getD (n - 1) ' ' == ')' && decide (1 ≤ n) then
    match (List.range (n - 1)).reverse.find?
        (fun j => decide (1 ≤ j) && r.getD j ' ' == '(' &&
                  (r.getD (j - 1) ' ').isWhitespace) with
    | some j => some (trim (r.take (j - 1)), trim ((r.drop (j + 1)).take (n - 1 - (j + 1))))
    | none => none
  else none

/-- Case-insensitive string equality (`right.lower() == left.lower()`). -/
def lowerEq (a b : Str) : Bool := a.map Char.toLower == b.map Char.toLower

/-- The derived-key loop of parse_docx: scan the (truncated, trailing-blank
trimmed) answer lines for the first trigger phrase and derive
(answer_value, answer_option) by the first matching rule. -/
def deriveKeys : List Str → Option Str × Option Str
  | [] => (none, none)
  | l :: rest =>
    match findRest (trim l) with
    | none => deriveKeys rest
    | some rest0 =>
      let r := trim rest0
      match matchOptForm r with
      | some vc => (some vc.1, some [vc.2])
      | none =>
        match matchParForm r with
        | some lr => (some (if lowerEq lr.2 lr.1 then lr.2 else lr.1), none)
        | none => (some r, none)

/-- The raw answer-segment lines of a block: the text after the marker on
the marker line (when nonempty) followed by the remaining lines of the
block. -/
def ansLines (block : List Str) (ansIdx : Nat) : List Str :=
  let post := afterMarker answerMarker (block.getD ansIdx [])
  (if post.isEmpty then [] else [post]) ++ block.drop (ansIdx + 1)

/-- Assemble one record from a block whose marker line sits at `ansIdx`. -/
def buildRecord (qn : Nat) (block : List Str) (ansIdx : Nat) : QA :=
  let qLines := (block.take ansIdx).drop 1
  let aLines := truncAtSep (ansLines block ansIdx)
  let dk := deriveKeys (dropTrailingBlanks aLines)
  { qnum := qn
    question_text := segText qLines
    answer_text := segText aLines
    answer_value := dk.1
    answer_option := dk.2 }

/-- One iteration of the parse_docx block loop: `none` when the block is
empty, headed by a non-marker line, or lacks an answer-marker line. -/
def parseBlock (block : List Str) : Option QA :=
  match block with
  | [] => none
  | b0 :: _ =>
    match qMarkerNum? b0 with
    | none => none
    | some qn =>
      match findFirstIdx (fun l => containsSub answerMarker l) block with
      | none => none
      | some ansIdx => some (buildRecord qn block ansIdx)

/-- parse_docx: extract the records of every well-formed block, in document
order. -/
def parse_docx (paras : List Str) : List QA :=
  (blockSlices paras).filterMap parseBlock

/-! ### The record store (build_db.py, upsert_questions)

The questions table is modelled as a list of rows in insertion order; the
`qnum UNIQUE` upsert updates the four dependent fields of every row whose
key conflicts and appends otherwise. -/

/-- The qnum column of the store. -/
def keys (s : List QA) : List Nat := s.map (fun r => r.qnum)

/-- ON CONFLICT(qnum) DO UPDATE applied to one row: keep the row's key,
replace its four dependent fields with the incoming record's. -/
def replRow (q r : QA) : QA :=
  if r.qnum == q.qnum then
    ⟨r.qnum, q.question_text, q.answer_text, q.answer_value, q.answer_option⟩
  else r

/-- Insert one record: update the conflicting row in place when the key is
present, append a fresh row otherwise. -/
def upsertOne (q : QA) (s : List QA) : List QA :=
  if s.any (fun r => r.qnum == q.qnum) then s.map (replRow q)
  else s ++ [q]

/-- upsert_questions: `executemany` over the record list, in order. -/
def upsert_questions (qs : List QA) (s : List QA) : List QA :=
  qs.foldl (fun acc q => upsertOne q acc) s

/-! ### The deterministic sampler (quiz_core.load_random_questions) -/

/-- Modelled from the spec: the pseudo-random generator state. CPython's
Mersenne-Twister `random.Random` is external to the repository; the spec
only requires a generator "initialized from `seed` (or from
non-deterministic entropy when `seed` is absent)" whose draws are a
deterministic function of that initialization, which a linear congruential
state models. -/
structure Rng where
  state : Nat
deriving DecidableEq

/-- One generator step. -/
def rngNext (g : Rng) : Rng := ⟨(g.state * 1103515245 + 12345) % 2147483648⟩

/-- A draw below `n` together with the advanced generator. -/
def randbelow (g : Rng) (n : Nat) : Nat × Rng := (g.state % n, rngNext g)

/-- Modelled from the spec: `random.Random(seed)` — a generator initialized
from the integer seed alone when one is supplied, and from ambient entropy
(made explicit here as an extra argument) when the seed is absent. -/
def mkRandom (seed : Option Int) (entropy : Nat) : Rng :=
  match seed with
  | some s => ⟨(s.natAbs + 17) % 2147483648⟩
  | none => ⟨entropy % 2147483648⟩

/-- Modelled from the spec: the selection loop of `random.sample` (the pool
algorithm) — draw an index below the active pool size, emit that element,
move the last active element into its slot and shrink the pool. -/
def sampleLoop (g : Rng) (pool : List Nat) : Nat → List Nat
  | 0 => []
  | Nat.succ k =>
    match pool with
    | [] => []
    | _ :: _ =>
      let jg := randbelow g pool.length
      let poolNext := (pool.set jg.1 (pool.getD (pool.length - 1) 0)).dropLast
      pool.getD jg.1 0 :: sampleLoop jg.2 poolNext k

/-- The sampler's possible failures. -/
inductive LoadError where
  | emptyStore : LoadError
  | oversized : Int → Nat → LoadError
  | sampleOutOfRange : LoadError
deriving DecidableEq

/-- Modelled from the spec and the `random.sample` contract: sampling `k`
of a population raises ValueError unless `0 ≤ k ≤ n`, and otherwise draws
`k` distinct positions without replacement in draw order. -/
def sample (g : Rng) (pop : List Nat) (k : Int) : Except LoadError (List Nat) :=
  if k < 0 ∨ (pop.length : Int) < k then Except.error LoadError.sampleOutOfRange
  else Except.ok (sampleLoop g pop k.toNat)

/-- quiz_core.load_random_questions: count the store, reject an empty store
or an oversized request, sample `count` qnums with a generator built from
the seed, fetch the matching rows and return them in draw order. -/
def load_random_questions (db : List QA) (count : Int) (seed : Option Int)
    (entropy : Nat) : Except LoadError (List QA) :=
  let g := mkRandom seed entropy
  if db.length = 0 then Except.error LoadError.emptyStore
  else if (db.length : Int) < count then
    Except.error (LoadError.oversized count db.length)
  else
    match sample g (db.map (fun r => r.qnum)) count with
    | Except.error e => Except.error e
    | Except.ok chosen =>
      let rows := db.filter (fun r => chosen.contains r.qnum)
      let ordered := chosen.filterMap (fun n => rows.reverse.find? (fun r => r.qnum == n))
      Except.ok ordered

/-! ### Helper lemmas -/

theorem isEmpty_false_of_ne {l : Str} (h : l ≠ []) : l.isEmpty = false := by
  cases l with
  | nil => exact absurd rfl h
  | cons c cs => rfl

theorem optTruthy_some_of_ne {o : Str} (h : o ≠ []) : optTruthy (some o) = true := by
  simp [optTruthy, isEmpty_false_of_ne h]

theorem upper_ne_nil {o : Str} (h : o ≠ []) : upper o ≠ [] := by
  cases o with
  | nil => exact absurd rfl h
  | cons c cs => simp [upper]

theorem gradeOptionLetter_eq (ua opt : Str) :
    gradeOptionLetter ua opt = (upper ua == upper (trim opt)) := by
  unfold gradeOptionLetter
  cases h : (upper ua == upper (trim opt)) with
  | true => simp [h]
  | false => cases ua.length == 1 && ua.all Char.isAlpha <;> simp [h]

theorem fallbackMatch_eq (ua atext : Str) (cs : Bool) :
    fallbackMatch ua atext cs =
      (if cs then decide (3 ≤ ua.length) && wbMatch ua atext
       else decide (3 ≤ (normalize ua).length) &&
            wbMatch (normalize ua) (normalize atext)) := by
  unfold fallbackMatch
  cases cs with
  | false =>
    simp only [Bool.false_eq_true, if_false]
    by_cases h : (normalize ua).length < 3
    · rw [if_pos h]
      have hle : ¬(3 ≤ (normalize ua).length) := by omega
      simp [hle]
    · rw [if_neg h]
      have hle : 3 ≤ (normalize ua).length := by omega
      simp [hle]
  | true =>
    simp only [if_pos rfl]
    by_cases h : ua.length < 3
    · rw [if_pos h]
      have hle : ¬(3 ≤ ua.length) := by omega
      simp [hle]
    · rw [if_neg h]
      have hle : 3 ≤ ua.length := by omega
      simp [hle]

theorem valueStep_of_order {qt : Str} (h : orderRequired qt = true)
    (ua av : Str) (cs : Bool) : valueStep ua av qt cs = exactValueMatch ua av cs := by
  simp [valueStep, h]

theorem optTruthy_none : optTruthy none = false := rfl

theorem is_correct_empty {ua0 : Str} (h : trim ua0 = []) (qa : QA) (cs : Bool) :
    is_correct ua0 qa cs = false := by
  simp [is_correct, h]

theorem is_correct_option {ua0 : Str} (h : trim ua0 ≠ []) {qa : QA} {o : Str}
    (hopt : qa.answer_option = some o) (hne : o ≠ []) (cs : Bool) :
    is_correct ua0 qa cs = gradeOptionLetter (trim ua0) o := by
  simp [is_correct, isEmpty_false_of_ne h, hopt, optTruthy_some_of_ne hne]

theorem is_correct_value_branch {ua0 : Str} (h : trim ua0 ≠ []) {qa : QA}
    (hopt : qa.answer_option = none) (cs : Bool) :
    is_correct ua0 qa cs =
      (if (optTruthy qa.answer_value &&
           valueStep (trim ua0) (qa.answer_value.getD []) qa.question_text cs) = true
       then true else fallbackMatch (trim ua0) qa.answer_text cs) := by
  simp [is_correct, isEmpty_false_of_ne h, hopt, optTruthy_none]

/-! ### Concrete records used by witnesses -/

/-- A multiple-choice record: derived value DHCP, derived option letter C. -/
def qaC1 : QA :=
  ⟨3, ("which protocol assigns addresses?").toList,
   ("the correct answer is DHCP (C)").toList,
   some (("DHCP").toList), some (("C").toList)⟩

/-- A free-text record with no derived keys. -/
def qaC2 : QA :=
  ⟨5, ("how does the switch forward?").toList,
   ("the switch forwards frames based on MAC addresses").toList,
   none, none⟩

/-- A multi-value record: comma-separated derived value, no option letter. -/
def qaC5 : QA :=
  ⟨9, ("name the two colors").toList,
   ("the correct answer is Blue, Red").toList,
   some (("Blue, Red").toList), none⟩

/-! ### Claim theorems: the grading engine -/

/-- C1: for a record whose `answer_option` is set (a nonempty letter with
no surrounding whitespace, as the extractor derives it), grading returns
true iff the trimmed, uppercased user answer equals the option compared
case-insensitively; and neither `answer_value` nor `answer_text` is
consulted — replacing them does not change the verdict. -/
theorem grading_option_letter_only (ua0 : Str) (qa : QA) (cs : Bool) (o : Str)
    (hopt : qa.answer_option = some o) (hne : o ≠ []) (htr : trim o = o) :
    (is_correct ua0 qa cs = true ↔ upper (trim ua0) = upper o) ∧
    (∀ (v : Option Str) (t : Str),
      is_correct ua0 { qa with answer_value := v, answer_text := t } cs =
        is_correct ua0 qa cs) := by
  constructor
  · by_cases hnil : trim ua0 = []
    · rw [is_correct_empty hnil, hnil]
      constructor
      · intro h; exact Bool.noConfusion h
      · intro h; exact absurd h.symm (upper_ne_nil hne)
    · rw [is_correct_option hnil hopt hne cs, gradeOptionLetter_eq, htr]
      exact beq_iff_eq
  · intro v t
    by_cases hnil : trim ua0 = []
    · rw [is_correct_empty hnil, is_correct_empty hnil]
    · rw [is_correct_option hnil hopt hne cs,
        @is_correct_option ua0 hnil { qa with answer_value := v, answer_text := t }
          o hopt hne cs]

/-- C1 witness: record with option letter C and value DHCP — the letter
grades correct (case-insensitively), the spelled-out value does not. -/
theorem grading_option_letter_only_witness :
    is_correct ((" c ").toList) qaC1 false = true ∧
    is_correct (("DHCP").toList) qaC1 false = false := by
  constructor
  · exact (grading_option_letter_only ((" c ").toList) qaC1 false (("C").toList)
      rfl (by decide) (by decide)).1.mpr (by decide)
  · refine Bool.eq_false_iff.mpr (fun hic => ?_)
    exact absurd ((grading_option_letter_only (("DHCP").toList) qaC1 false
      (("C").toList) rfl (by decide) (by decide)).1.mp hic) (by decide)

/-- C2: with `answer_option` unset and neither the empty-answer rule nor
the answer_value step yielding a verdict, grading equals the fallback:
true iff the candidate (trimmed when case-sensitive, normalized otherwise)
has at least 3 characters and occurs word-boundary-delimited inside
`answer_text` under the active case policy. -/
theorem grading_fallback_word_boundary (ua0 : Str) (qa : QA) (cs : Bool)
    (hopt : qa.answer_option = none)
    (hne : trim ua0 ≠ [])
    (hval : (optTruthy qa.answer_value &&
             valueStep (trim ua0) (qa.answer_value.getD [])
               qa.question_text cs) = false) :
    is_correct ua0 qa cs =
      (if cs then decide (3 ≤ (trim ua0).length) && wbMatch (trim ua0) qa.answer_text
       else decide (3 ≤ (normalize (trim ua0)).length) &&
            wbMatch (normalize (trim ua0)) (normalize qa.answer_text)) := by
  rw [is_correct_value_branch hne hopt cs, hval]
  simp only [Bool.false_eq_true, if_false]
  exact fallbackMatch_eq (trim ua0) qa.answer_text cs

/-- C2 witness: "MAC" (3 characters after normalization) matches as a whole
word inside the stored answer text. -/
theorem grading_fallback_word_boundary_witness :
    is_correct ((" MAC ").toList) qaC2 false = true :=
  (grading_fallback_word_boundary ((" MAC ").toList) qaC2 false rfl
    (by decide) (by decide)).trans (by decide)

/-- C5: with `answer_option` unset and `answer_value` set, when no ordering
phrase occurs and both sides contain commas, equal comma-split trimmed
nonempty piece-sets (under the active case policy) grade correct; and when
an ordering phrase occurs the set comparison is not applied — grading
reduces to the exact comparison followed by the fallback. -/
theorem grading_csv_set_comparison (ua0 : Str) (qa : QA) (cs : Bool) (av : Str)
    (hopt : qa.answer_option = none)
    (hav : qa.answer_value = some av)
    (havne : av ≠ [])
    (hne : trim ua0 ≠ []) :
    ((orderRequired qa.question_text = false →
      av.contains ',' = true → (trim ua0).contains ',' = true →
      partsSetEq (splitCsv (trim ua0)) (splitCsv av) cs = true →
      is_correct ua0 qa cs = true) ∧
     (orderRequired qa.question_text = true →
      is_correct ua0 qa cs =
        (exactValueMatch (trim ua0) av cs ||
         fallbackMatch (trim ua0) qa.answer_text cs))) := by
  have hT : optTruthy (some av) = true := optTruthy_some_of_ne havne
  constructor
  · intro hord hc1 hc2 hsets
    have hvs : valueStep (trim ua0) av qa.question_text cs = true := by
      have hm1 : ',' ∈ av := by simpa using hc1
      have hm2 : ',' ∈ trim ua0 := by simpa using hc2
      simp [valueStep, hord, hsets, hm1, hm2]
    rw [is_correct_value_branch hne hopt cs, hav]
    simp [hT, hvs]
  · intro hord
    have hvs : valueStep (trim ua0) av qa.question_text cs =
        exactValueMatch (trim ua0) av cs := valueStep_of_order hord _ _ _
    rw [is_correct_value_branch hne hopt cs, hav]
    simp only [Option.getD_some, hT, hvs, Bool.true_and]
    cases hEx : exactValueMatch (trim ua0) av cs with
    | true => simp [hEx]
    | false => simp [hEx]

/-- C5 witness: record value "Blue, Red" — "red, blue" grades correct as a
set when the question does not demand ordering; with "alphabetical order"
in the question text the verdict equals the exact-then-fallback pipeline. -/
theorem grading_csv_set_comparison_witness :
    is_correct (("red, blue").toList) qaC5 false = true ∧
    is_correct (("red, blue").toList)
        { qaC5 with question_text := ("list them in alphabetical order").toList }
        false =
      (exactValueMatch (trim (("red, blue").toList)) (("Blue, Red").toList) false ||
       fallbackMatch (trim (("red, blue").toList)) qaC5.answer_text false) := by
  constructor
  · exact (grading_csv_set_comparison (("red, blue").toList) qaC5 false
      (("Blue, Red").toList) rfl rfl (by decide) (by decide)).1
      (by decide) (by decide) (by decide) (by decide)
  · exact (grading_csv_set_comparison (("red, blue").toList)
      { qaC5 with question_text := ("list them in alphabetical order").toList }
      false (("Blue, Red").toList) rfl rfl (by decide) (by decide)).2 (by decide)

/-! ### Claim theorems: the sampler -/

/-- C4: with a supplied seed the sampler is a deterministic function of the
seed and the store contents — two successful calls with the same seed,
count and store (but arbitrary ambient entropy) return the identical
ordered sequence of qnum values. -/
theorem sampler_seed_deterministic (db : List QA) (n : Int) (s : Int)
    (e1 e2 : Nat) (qs1 qs2 : List QA)
    (h1 : load_random_questions db n (some s) e1 = Except.ok qs1)
    (h2 : load_random_questions db n (some s) e2 = Except.ok qs2) :
    qs1.map (fun r => r.qnum) = qs2.map (fun r => r.qnum) := by
  have h : load_random_questions db n (some s) e1 =
      load_random_questions db n (some s) e2 := rfl
  rw [h1, h2] at h
  injection h with h3
  rw [h3]

/-- C4 witness: a one-row store sampled with seed 3 under two different
entropy values yields the same qnum sequence. -/
theorem sampler_seed_deterministic_witness :
    ([(⟨7, [], [], none, none⟩ : QA)].map (fun r => r.qnum)) =
      ([(⟨7, [], [], none, none⟩ : QA)].map (fun r => r.qnum)) :=
  sampler_seed_deterministic [⟨7, [], [], none, none⟩] 1 3 0 5 _ _ rfl rfl

/-- C8: the sampler fails with the empty-store error whenever the store
holds zero records, and with the out-of-range error carrying both the
requested count and the available total whenever the store is non-empty
and the count exceeds it; an error carries no records. -/
theorem sampler_error_contract (db : List QA) (n : Int) (seed : Option Int) (e : Nat) :
    (db = [] → load_random_questions db n seed e = Except.error LoadError.emptyStore) ∧
    (db ≠ [] → (db.length : Int) < n →
      load_random_questions db n seed e =
        Except.error (LoadError.oversized n db.length)) := by
  constructor
  · intro h; subst h; rfl
  · intro h hlt
    have h0 : ¬(db.length = 0) := by
      cases db with
      | nil => exact absurd rfl h
      | cons a l => simp
    simp only [load_random_questions]
    rw [if_neg h0, if_pos hlt]

/-- C8 witness: the contract at an empty store and at an oversized request
against a one-row store. -/
theorem sampler_error_contract_witness :
    load_random_questions ([] : List QA) 5 none 0 =
      Except.error LoadError.emptyStore ∧
    load_random_questions [⟨7, [], [], none, none⟩] 5 none 0 =
      Except.error (LoadError.oversized 5 1) := by
  constructor
  · exact (sampler_error_contract [] 5 none 0).1 rfl
  · exact (sampler_error_contract [⟨7, [], [], none, none⟩] 5 none 0).2
      (by simp) (by decide)

/-- C10 counterexample: a negative count against a non-empty store (so the
count does not exceed the total) still fails — refuting the claim that the
sampler errors only on an empty store or an oversized count. -/
theorem sampler_negative_count_cex :
    load_random_questions [⟨7, [], [], none, none⟩] (-1) none 0 =
      Except.error LoadError.sampleOutOfRange ∧
    ([(⟨7, [], [], none, none⟩ : QA)] ≠ []) ∧
    ¬((([(⟨7, [], [], none, none⟩ : QA)].length : Int)) < -1) :=
  ⟨rfl, by simp, by decide⟩

/-- C10 (amended): the sampler errors exactly when the store is empty, the
count exceeds the total, or the count is negative; in particular a zero
count against a non-empty store succeeds with the empty list. -/
theorem sampler_error_iff_amended (db : List QA) (n : Int) (seed : Option Int) (e : Nat) :
    ((∃ err, load_random_questions db n seed e = Except.error err) ↔
      (db = [] ∨ (db.length : Int) < n ∨ n < 0)) ∧
    (db ≠ [] → load_random_questions db 0 seed e = Except.ok []) := by
  constructor
  · by_cases h0 : db.length = 0
    · have hdb : db = [] := List.length_eq_zero.mp h0
      subst hdb
      constructor
      · intro _; exact Or.inl rfl
      · intro _; exact ⟨LoadError.emptyStore, rfl⟩
    · by_cases hlt : (db.length : Int) < n
      · constructor
        · intro _; exact Or.inr (Or.inl hlt)
        · intro _
          refine ⟨LoadError.oversized n db.length, ?_⟩
          simp only [load_random_questions]
          rw [if_neg h0, if_pos hlt]
      · by_cases hneg : n < 0
        · constructor
          · intro _; exact Or.inr (Or.inr hneg)
          · intro _
            refine ⟨LoadError.sampleOutOfRange, ?_⟩
            simp only [load_random_questions]
            rw [if_neg h0, if_neg hlt]
            have hs : sample (mkRandom seed e) (db.map (fun r => r.qnum)) n =
                Except.error LoadError.sampleOutOfRange := by
              simp [sample, hneg]
            rw [hs]
        · have hs : sample (mkRandom seed e) (db.map (fun r => r.qnum)) n =
              Except.ok (sampleLoop (mkRandom seed e)
                (db.map (fun r => r.qnum)) n.toNat) := by
            have : ¬(n < 0 ∨ ((db.map (fun r => r.qnum)).length : Int) < n) := by
              simp only [List.length_map]
              omega
            simp only [sample, if_neg this]
          constructor
          · rintro ⟨err, herr⟩
            simp only [load_random_questions] at herr
            rw [if_neg h0, if_neg hlt, hs] at herr
            exact Except.noConfusion herr
          · rintro (h | h | h)
            · exact absurd h (by intro hh; subst hh; exact h0 rfl)
            · exact absurd h hlt
            · exact absurd h hneg
  · intro hne
    have h0 : ¬(db.length = 0) := by
      cases db with
      | nil => exact absurd rfl hne
      | cons a l => simp
    have hlt : ¬((db.length : Int) < 0) := by omega
    have hs : sample (mkRandom seed e) (db.map (fun r => r.qnum)) 0 =
        Except.ok [] := by
      have hc : ¬((0 : Int) < 0 ∨ ((db.map (fun r => r.qnum)).length : Int) < 0) := by
        simp only [List.length_map]
        omega
      simp only [sample, if_neg hc]
      rfl
    simp only [load_random_questions]
    rw [if_neg h0, if_neg hlt, hs]
    rfl

/-- C10 witness: count 0 against a non-empty store succeeds with the empty
list. -/
theorem sampler_error_iff_amended_witness :
    load_random_questions [⟨7, [], [], none, none⟩] 0 none 0 = Except.ok [] :=
  (sampler_error_iff_amended [⟨7, [], [], none, none⟩] 0 none 0).2 (by simp)

/-! ### Helper lemmas for the parser claims -/

theorem findFirstIdx_le_of_get {p : Str → Bool} :
    ∀ (ls : List Str) (i : Nat) (h : i < ls.length), p (ls.get ⟨i, h⟩) = true →
      ∃ j, findFirstIdx p ls = some j ∧ j ≤ i
  | [], i, h, _ => absurd h (by simp)
  | l :: t, i, h, hp => by
    by_cases hl : p l = true
    · exact ⟨0, by simp [findFirstIdx, hl], Nat.zero_le i⟩
    · cases i with
      | zero => exact absurd hp hl
      | succ i =>
        have h2 : i < t.length := Nat.lt_of_succ_lt_succ h
        obtain ⟨j, hj, hji⟩ := findFirstIdx_le_of_get t i h2 hp
        refine ⟨j + 1, ?_, Nat.succ_le_succ hji⟩
        simp [findFirstIdx, hl, hj]

theorem findFirstIdx_eq_none {p : Str → Bool} :
    ∀ (ls : List Str), (∀ l ∈ ls, p l = false) → findFirstIdx p ls = none
  | [], _ => rfl
  | l :: t, h => by
    have h1 : p l = false := h l (List.mem_cons_self l t)
    have h2 : findFirstIdx p t = none :=
      findFirstIdx_eq_none t (fun x hx => h x (List.mem_cons_of_mem l hx))
    simp [findFirstIdx, h1, h2]

theorem findFirstIdx_isSome_of_mem {p : Str → Bool} :
    ∀ (ls : List Str), (∃ l ∈ ls, p l = true) → (findFirstIdx p ls).isSome = true
  | [], h => by simp at h
  | l :: t, h => by
    by_cases h1 : p l = true
    · simp [findFirstIdx, h1]
    · have h2 : ∃ x ∈ t, p x = true := by
        obtain ⟨x, hx, hpx⟩ := h
        rcases List.mem_cons.mp hx with he | hm
        · exact absurd (he ▸ hpx) h1
        · exact ⟨x, hm, hpx⟩
      have h3 := findFirstIdx_isSome_of_mem t h2
      obtain ⟨j, hj⟩ := Option.isSome_iff_exists.mp h3
      simp [findFirstIdx, h1, hj]

/-! ### Claim theorems: the parser -/

/-- Answer lines containing a separator for the C6 witness. -/
def sepDemo : List Str :=
  [("the answer").toList, ("===============").toList, ("junk").toList]

/-- C6: whenever a line of the answer segment satisfies the separator
condition (only `=` characters, stripped length over 10), the truncation
keeps at most the lines strictly before it — the separator line and
everything after it are gone; and `answer_text` is built from exactly that
truncated segment. -/
theorem parser_separator_truncates :
    (∀ (ls : List Str) (i : Nat) (h : i < ls.length),
      isSepLine (ls.get ⟨i, h⟩) = true →
      ∃ m, m ≤ i ∧ truncAtSep ls = ls.take m) ∧
    (∀ (qn : Nat) (block : List Str) (ansIdx : Nat),
      (buildRecord qn block ansIdx).answer_text =
        segText (truncAtSep (ansLines block ansIdx))) := by
  constructor
  · intro ls i h hp
    obtain ⟨j, hj, hji⟩ := findFirstIdx_le_of_get ls i h hp
    exact ⟨j, hji, by simp [truncAtSep, hj]⟩
  · intro qn block ansIdx
    rfl

/-- C6 witness: a separator at index 1 truncates the segment to a prefix of
the first line alone. -/
theorem parser_separator_truncates_witness :
    ∃ m, m ≤ 1 ∧ truncAtSep sepDemo = sepDemo.take m :=
  (parser_separator_truncates).1 sepDemo 1 (by decide) (by decide)

/-- C7: the parser is the block-wise filterMap of `parseBlock` over the
document's blocks in document order; a block with no answer-marker line
yields no record at all, while a block headed by a question marker that
does contain the marker always yields one. -/
theorem parser_skips_markerless_blocks :
    (∀ paras : List Str, parse_docx paras = (blockSlices paras).filterMap parseBlock) ∧
    (∀ b : List Str, (∀ l ∈ b, containsSub answerMarker l = false) →
      parseBlock b = none) ∧
    (∀ (b : List Str) (l0 : Str), b.head? = some l0 →
      (qMarkerNum? l0).isSome = true →
      (∃ l ∈ b, containsSub answerMarker l = true) →
      (parseBlock b).isSome = true) := by
  refine ⟨fun paras => rfl, ?_, ?_⟩
  · intro b h
    cases b with
    | nil => rfl
    | cons b0 t =>
      have hf : findFirstIdx (fun l => containsSub answerMarker l) (b0 :: t) = none :=
        findFirstIdx_eq_none _ h
      cases hq : qMarkerNum? b0 with
      | none => simp [parseBlock, hq]
      | some qn => simp [parseBlock, hq, hf]
  · intro b l0 hh hq hex
    cases b with
    | nil => simp at hh
    | cons b0 t =>
      have hb0 : b0 = l0 := by simpa using hh
      subst hb0
      obtain ⟨qn, hqn⟩ := Option.isSome_iff_exists.mp hq
      have hf := findFirstIdx_isSome_of_mem
        (p := fun l => containsSub answerMarker l) (b0 :: t) hex
      obtain ⟨j, hj⟩ := Option.isSome_iff_exists.mp hf
      simp [parseBlock, hqn, hj]

/-- C7 witness: a markerless block headed by a question marker yields no
record; a well-formed one yields a record. -/
theorem parser_skips_markerless_blocks_witness :
    parseBlock [("Question 2 of 9").toList, ("orphan question").toList] = none ∧
    (parseBlock [("Question 1 of 9").toList, ("[+] Answer> yes").toList]).isSome = true := by
  constructor
  · exact (parser_skips_markerless_blocks).2.1
      [("Question 2 of 9").toList, ("orphan question").toList] (by decide)
  · exact (parser_skips_markerless_blocks).2.2
      [("Question 1 of 9").toList, ("[+] Answer> yes").toList]
      (("Question 1 of 9").toList) rfl (by decide)
      ⟨("[+] Answer> yes").toList, by decide, by decide⟩

/-! ### Helper lemmas for the segment-trimming claim -/

theorem head_dropWhile_false {α : Type} {p : α → Bool} :
    ∀ (l : List α) (a : α) (t : List α), l.dropWhile p = a :: t → p a = false
  | [], a, t, h => by simp at h
  | x :: xs, a, t, h => by
    by_cases hx : p x = true
    · rw [List.dropWhile_cons, if_pos hx] at h
      exact head_dropWhile_false xs a t h
    · rw [List.dropWhile_cons, if_neg hx] at h
      cases h
      exact Bool.eq_false_iff.mpr hx

theorem lstripNl_joinNl :
    ∀ (ls : List Str), (∀ l ∈ ls, ∀ c ∈ l, c ≠ '\n') →
      lstripNl (joinNl ls) = joinNl (ls.dropWhile (fun l => l.isEmpty))
  | [], _ => rfl
  | [l], h => by
    cases l with
    | nil => rfl
    | cons c cs =>
      have hc : (c == '\n') = false :=
        Bool.eq_false_iff.mpr (by simpa using h (c :: cs) (by simp) c (by simp))
      simp [joinNl, lstripNl, List.dropWhile_cons, hc]
  | l :: l2 :: t, h => by
    cases l with
    | nil =>
      have ih := lstripNl_joinNl (l2 :: t) (fun x hx => h x (by simp [hx]))
      show lstripNl ([] ++ '\n' :: joinNl (l2 :: t)) = _
      rw [List.nil_append]
      rw [show lstripNl ('\n' :: joinNl (l2 :: t)) = lstripNl (joinNl (l2 :: t)) from by
        simp [lstripNl, List.dropWhile_cons]]
      rw [ih]
      simp [List.dropWhile_cons]
    | cons c cs =>
      have hc : (c == '\n') = false :=
        Bool.eq_false_iff.mpr (by simpa using h (c :: cs) (by simp) c (by simp))
      show lstripNl ((c :: cs) ++ '\n' :: joinNl (l2 :: t)) = _
      rw [List.cons_append]
      rw [show lstripNl (c :: (cs ++ '\n' :: joinNl (l2 :: t))) =
            c :: (cs ++ '\n' :: joinNl (l2 :: t)) from by
        simp [lstripNl, List.dropWhile_cons, hc]]
      simp [List.dropWhile_cons, joinNl]

theorem getLast?_joinNl :
    ∀ (ls : List Str) (l : Str), ls.getLast? = some l → l ≠ [] →
      (joinNl ls).getLast? = l.getLast?
  | [], l, h, _ => by simp at h
  | [l0], l, h, hne => by
    have : l0 = l := by simpa using h
    subst this
    rfl
  | l0 :: l1 :: t, l, h, hne => by
    have h2 : (l1 :: t).getLast? = some l := by
      rw [← List.getLast?_cons_cons (a := l0)]
      exact h
    have ih := getLast?_joinNl (l1 :: t) l h2 hne
    have hnil : joinNl (l1 :: t) ≠ [] := by
      intro hx
      rw [hx] at ih
      have hsome : l.getLast?.isSome = true := List.getLast?_isSome.mpr hne
      rw [← ih] at hsome
      simp at hsome
    show (l0 ++ '\n' :: joinNl (l1 :: t)).getLast? = _
    rw [List.getLast?_append_of_ne_nil l0 (by simp)]
    rw [show ('\n' :: joinNl (l1 :: t)) = ['\n'] ++ joinNl (l1 :: t) from rfl]
    rw [List.getLast?_append_of_ne_nil ['\n'] hnil]
    exact ih

theorem rstrip_reverse_noop {x : Str}
    (hx : ∀ c, x.getLast? = some c → (c == '\n') = false) :
    (x.reverse.dropWhile (fun c => c == '\n')).reverse = x := by
  cases hrev : x.reverse with
  | nil =>
    have hx0 : x = [] := List.reverse_eq_nil_iff.mp hrev
    simp [hx0]
  | cons c t =>
    have hc : x.getLast? = some c := by
      rw [← List.head?_reverse, hrev]
      rfl
    have hpc := hx c hc
    rw [List.dropWhile_cons, if_neg (by simp [hpc])]
    rw [← hrev, List.reverse_reverse]

theorem mem_of_getLast?_eq {α : Type} {l : List α} {x : α}
    (h : l.getLast? = some x) : x ∈ l := by
  obtain ⟨hne, hx⟩ := List.mem_getLast?_eq_getLast (l := l) (x := x) (by rw [h]; rfl)
  rw [hx]
  exact List.getLast_mem hne

theorem mem_dropTrailingBlanks {l : Str} {ls : List Str}
    (h : l ∈ dropTrailingBlanks ls) : l ∈ ls := by
  have h1 : l ∈ ls.reverse.dropWhile isBlankLine := by
    simpa [dropTrailingBlanks] using h
  exact List.mem_reverse.mp (List.Sublist.mem h1 (List.dropWhile_sublist _))

theorem dropTrailingBlanks_last (ls : List Str) :
    dropTrailingBlanks ls = [] ∨
    ∃ lst, (dropTrailingBlanks ls).getLast? = some lst ∧ isBlankLine lst = false := by
  unfold dropTrailingBlanks
  cases hd : ls.reverse.dropWhile isBlankLine with
  | nil => left; simp [hd]
  | cons a t =>
    right
    refine ⟨a, ?_, head_dropWhile_false ls.reverse a t hd⟩
    rw [List.getLast?_reverse]
    rfl

/-! ### Claim theorems: segment trimming (C3) -/

/-- The four-paragraph document whose question segment starts with a blank
line. -/
def exDoc : List Str :=
  [("Question 1 of 1").toList, [], ("What?").toList, ("[+] Answer> It.").toList]

/-- C3 counterexample: in `exDoc` the raw question segment is the blank
line followed by "What?"; removing only its trailing blank lines and
joining with newlines would keep the leading blank line, but the parser
stores plain "What?" — the leading blank line is gone. -/
theorem parser_leading_blank_cex :
    (parse_docx exDoc).map (fun r => r.question_text) = [("What?").toList] ∧
    joinNl (dropTrailingBlanks [[], ("What?").toList]) ≠ ("What?").toList := by
  constructor
  · decide
  · decide

/-- C3 (amended): on newline-free paragraph lines, the stored segment text
is the newline-join of the segment after dropping its trailing blank lines
and then its leading empty lines; interior blank lines and all other
whitespace survive verbatim inside the join. -/
theorem parser_segment_trim_amended (ls : List Str)
    (h : ∀ l ∈ ls, ∀ c ∈ l, c ≠ '\n') :
    segText ls = joinNl ((dropTrailingBlanks ls).dropWhile (fun l => l.isEmpty)) := by
  have hsub : ∀ l ∈ dropTrailingBlanks ls, ∀ c ∈ l, c ≠ '\n' :=
    fun l hl => h l (mem_dropTrailingBlanks hl)
  unfold segText stripNl
  rw [lstripNl_joinNl (dropTrailingBlanks ls) hsub]
  apply rstrip_reverse_noop
  intro c hc
  rcases dropTrailingBlanks_last ls with hnil | ⟨lst, hlast, hblank⟩
  · rw [hnil] at hc
    simp [joinNl] at hc
  · have hlne : lst ≠ [] := by
      intro he
      rw [he] at hblank
      exact Bool.noConfusion hblank
    cases hD : (dropTrailingBlanks ls).dropWhile (fun l => l.isEmpty) with
    | nil =>
      rw [hD] at hc
      simp [joinNl] at hc
    | cons a t =>
      have hDlast : ((dropTrailingBlanks ls).dropWhile (fun l => l.isEmpty)).getLast? =
          some lst := by
        have hsplit := List.takeWhile_append_dropWhile
          (p := fun l : Str => l.isEmpty) (l := dropTrailingBlanks ls)
        have hne2 : (dropTrailingBlanks ls).dropWhile (fun l => l.isEmpty) ≠ [] := by
          rw [hD]; simp
        rw [← List.getLast?_append_of_ne_nil
          ((dropTrailingBlanks ls).takeWhile (fun l => l.isEmpty)) hne2, hsplit]
        exact hlast
      have hjoin := getLast?_joinNl _ lst hDlast hlne
      rw [hjoin] at hc
      have hcm : c ∈ lst := mem_of_getLast?_eq hc
      have hmem : lst ∈ ls := by
        apply mem_dropTrailingBlanks
        apply mem_of_getLast?_eq hlast
      exact Bool.eq_false_iff.mpr (by simpa using h lst hmem c hcm)

/-- C3 amended witness: a segment with a leading blank line, an interior
blank line and a trailing blank line stores as the join after dropping the
boundary blanks only. -/
theorem parser_segment_trim_amended_witness :
    segText [[], ("a b").toList, [], ("c").toList, []] =
      joinNl ((dropTrailingBlanks [[], ("a b").toList, [], ("c").toList, []]).dropWhile
        (fun l => l.isEmpty)) :=
  parser_segment_trim_amended [[], ("a b").toList, [], ("c").toList, []] (by decide)

/-! ### Helper definitions and lemmas for upsert idempotence

`upsert_questions` is characterised by a last-write-wins decomposition: the
prior rows with their fields overridden by the last conflicting incoming
record, followed by the genuinely new rows. -/

/-- The last incoming record carrying the given key, if any. -/
def lastFieldsFor (qs : List QA) (k : Nat) : Option QA :=
  qs.reverse.find? (fun q => q.qnum == k)

/-- Override one row's four dependent fields with those of the last
incoming record sharing its key. -/
def applyLastOf (qs : List QA) (r : QA) : QA :=
  match lastFieldsFor qs r.qnum with
  | some q => ⟨r.qnum, q.question_text, q.answer_text, q.answer_value, q.answer_option⟩
  | none => r

/-- The rows appended for keys absent from `ks`, in first-occurrence order,
each already carrying its last incoming fields. -/
def newRows : List QA → List Nat → List QA
  | [], _ => []
  | q :: rest, ks =>
    if ks.contains q.qnum then newRows rest ks
    else applyLastOf rest q :: newRows rest (ks ++ [q.qnum])

theorem replRow_qnum (q r : QA) : (replRow q r).qnum = r.qnum := by
  unfold replRow
  split <;> rfl

theorem applyLastOf_qnum (qs : List QA) (r : QA) : (applyLastOf qs r).qnum = r.qnum := by
  unfold applyLastOf
  cases lastFieldsFor qs r.qnum <;> rfl

theorem applyLastOf_of_find?_eq {qs : List QA} {r p : QA}
    (h : lastFieldsFor qs r.qnum = some p) :
    applyLastOf qs r =
      ⟨r.qnum, p.question_text, p.answer_text, p.answer_value, p.answer_option⟩ := by
  unfold applyLastOf
  rw [h]

theorem applyLastOf_of_find?_none {qs : List QA} {r : QA}
    (h : lastFieldsFor qs r.qnum = none) : applyLastOf qs r = r := by
  unfold applyLastOf
  rw [h]

theorem replRow_of_ne {q r : QA} (h : r.qnum ≠ q.qnum) : replRow q r = r := by
  simp [replRow, h]

theorem applyLastOf_cons (q : QA) (qs : List QA) (r : QA) :
    applyLastOf (q :: qs) r = applyLastOf qs (replRow q r) := by
  cases h : lastFieldsFor qs r.qnum with
  | some p =>
    have hc : lastFieldsFor (q :: qs) r.qnum = some p := by
      unfold lastFieldsFor at h ⊢
      rw [List.reverse_cons, List.find?_append, h]
      rfl
    have h2 : lastFieldsFor qs (replRow q r).qnum = some p := by
      rw [replRow_qnum]
      exact h
    rw [applyLastOf_of_find?_eq hc, applyLastOf_of_find?_eq h2, replRow_qnum]
  | none =>
    have h2 : lastFieldsFor qs (replRow q r).qnum = none := by
      rw [replRow_qnum]
      exact h
    rw [applyLastOf_of_find?_none h2]
    unfold applyLastOf lastFieldsFor
    rw [List.reverse_cons, List.find?_append]
    unfold lastFieldsFor at h
    rw [h]
    by_cases hq : q.qnum = r.qnum
    · simp [List.find?_cons, hq, replRow]
    · simp [List.find?_cons, hq, replRow, Ne.symm hq]

theorem applyLastOf_idem (qs : List QA) (r : QA) :
    applyLastOf qs (applyLastOf qs r) = applyLastOf qs r := by
  cases h : lastFieldsFor qs r.qnum with
  | none =>
    have h1 := applyLastOf_of_find?_none h
    rw [h1]
    exact h1
  | some p =>
    have h1 := applyLastOf_of_find?_eq h
    rw [h1]
    exact applyLastOf_of_find?_eq
      (r := ⟨r.qnum, p.question_text, p.answer_text, p.answer_value, p.answer_option⟩) h

theorem keys_map_replRow (q : QA) (s : List QA) : keys (s.map (replRow q)) = keys s := by
  unfold keys
  rw [List.map_map]
  exact List.map_congr_left (fun r _ => replRow_qnum q r)

theorem any_key_iff {q : QA} {s : List QA} :
    s.any (fun r => r.qnum == q.qnum) = true ↔ q.qnum ∈ keys s := by
  simp [keys, List.any_eq_true, List.mem_map]

theorem upsertOne_pos {q : QA} {s : List QA}
    (h : s.any (fun r => r.qnum == q.qnum) = true) :
    upsertOne q s = s.map (replRow q) := by
  unfold upsertOne
  rw [if_pos h]

theorem upsertOne_neg {q : QA} {s : List QA}
    (h : ¬(s.any (fun r => r.qnum == q.qnum) = true)) :
    upsertOne q s = s ++ [q] := by
  unfold upsertOne
  rw [if_neg h]

theorem applyLastOf_nil (r : QA) : applyLastOf [] r = r := rfl

theorem upsert_decomp : ∀ (qs s : List QA),
    upsert_questions qs s = s.map (applyLastOf qs) ++ newRows qs (keys s)
  | [], s => by
    show s = s.map (applyLastOf []) ++ newRows [] (keys s)
    rw [show newRows [] (keys s) = [] from rfl, List.append_nil]
    rw [List.map_congr_left (fun r _ => applyLastOf_nil r)]
    simp
  | q :: rest, s => by
    show upsert_questions rest (upsertOne q s) = _
    by_cases hq : q.qnum ∈ keys s
    · have hany : s.any (fun r => r.qnum == q.qnum) = true := any_key_iff.mpr hq
      rw [upsertOne_pos hany, upsert_decomp rest (s.map (replRow q)), keys_map_replRow,
        List.map_map]
      have hc : (keys s).contains q.qnum = true := List.elem_iff.mpr hq
      rw [show newRows (q :: rest) (keys s) = newRows rest (keys s) from by
        simp only [newRows]; rw [if_pos hc]]
      congr 1
      exact List.map_congr_left (fun r _ => (applyLastOf_cons q rest r).symm)
    · have hany : ¬(s.any (fun r => r.qnum == q.qnum) = true) :=
        fun hh => hq (any_key_iff.mp hh)
      rw [upsertOne_neg hany, upsert_decomp rest (s ++ [q]),
        show keys (s ++ [q]) = keys s ++ [q.qnum] from by simp [keys],
        List.map_append]
      have hmap : s.map (applyLastOf rest) = s.map (applyLastOf (q :: rest)) := by
        apply List.map_congr_left
        intro r hr
        have hrq : r.qnum ≠ q.qnum := by
          intro he
          exact hq (by rw [← he]; exact List.mem_map_of_mem (fun x => x.qnum) hr)
        rw [applyLastOf_cons, replRow_of_ne hrq]
      have hc : (keys s).contains q.qnum = false :=
        Bool.eq_false_iff.mpr (fun hcc => hq (List.elem_iff.mp hcc))
      rw [hmap, show newRows (q :: rest) (keys s) =
        applyLastOf rest q :: newRows rest (keys s ++ [q.qnum]) from by
          simp only [newRows]; rw [if_neg (by rw [hc]; exact Bool.noConfusion)]]
      simp [List.append_assoc]

theorem newRows_key_not_mem : ∀ (qs : List QA) (ks : List Nat) (r : QA),
    r ∈ newRows qs ks → ¬(r.qnum ∈ ks)
  | [], ks, r, h => by simp [newRows] at h
  | q :: rest, ks, r, h => by
    by_cases hc : ks.contains q.qnum = true
    · simp only [newRows] at h
      rw [if_pos hc] at h
      exact newRows_key_not_mem rest ks r h
    · simp only [newRows] at h
      rw [if_neg hc] at h
      rcases List.mem_cons.mp h with he | hm
      · intro hk
        rw [he, applyLastOf_qnum] at hk
        exact hc (List.elem_iff.mpr hk)
      · intro hk
        exact newRows_key_not_mem rest (ks ++ [q.qnum]) r hm (List.mem_append_left _ hk)

theorem newRows_fixed : ∀ (qs : List QA) (ks : List Nat) (r : QA),
    r ∈ newRows qs ks → applyLastOf qs r = r
  | [], ks, r, h => by simp [newRows] at h
  | q :: rest, ks, r, h => by
    by_cases hc : ks.contains q.qnum = true
    · simp only [newRows] at h
      rw [if_pos hc] at h
      have hne : r.qnum ≠ q.qnum := by
        intro he
        exact newRows_key_not_mem rest ks r h (he ▸ List.elem_iff.mp hc)
      rw [applyLastOf_cons, replRow_of_ne hne]
      exact newRows_fixed rest ks r h
    · simp only [newRows] at h
      rw [if_neg hc] at h
      rcases List.mem_cons.mp h with he | hm
      · subst he
        rw [applyLastOf_cons]
        rw [show replRow q (applyLastOf rest q) = q from by
          simp [replRow, applyLastOf_qnum]]
      · have hne : r.qnum ≠ q.qnum := by
          intro he
          exact newRows_key_not_mem rest (ks ++ [q.qnum]) r hm
            (List.mem_append_right _ (List.mem_singleton.mpr he))
        rw [applyLastOf_cons, replRow_of_ne hne]
        exact newRows_fixed rest (ks ++ [q.qnum]) r hm

theorem newRows_nil_of_subset : ∀ (qs : List QA) (ks : List Nat),
    (∀ q ∈ qs, q.qnum ∈ ks) → newRows qs ks = []
  | [], _, _ => rfl
  | q :: rest, ks, h => by
    have hc : ks.contains q.qnum = true := List.elem_iff.mpr (h q (by simp))
    simp only [newRows]
    rw [if_pos hc]
    exact newRows_nil_of_subset rest ks (fun x hx => h x (by simp [hx]))

theorem key_mem_newRows_or : ∀ (qs : List QA) (ks : List Nat) (q : QA),
    q ∈ qs → q.qnum ∈ ks ∨ q.qnum ∈ keys (newRows qs ks)
  | [], _, q, h => by simp at h
  | p :: rest, ks, q, h => by
    by_cases hc : ks.contains p.qnum = true
    · rcases List.mem_cons.mp h with he | hm
      · left
        rw [he]
        exact List.elem_iff.mp hc
      · rcases key_mem_newRows_or rest ks q hm with h1 | h1
        · exact Or.inl h1
        · right
          simp only [newRows]
          rw [if_pos hc]
          exact h1
    · rcases List.mem_cons.mp h with he | hm
      · right
        simp only [newRows]
        rw [if_neg hc]
        subst he
        simp [keys, applyLastOf_qnum]
      · rcases key_mem_newRows_or rest (ks ++ [p.qnum]) q hm with h1 | h1
        · rcases List.mem_append.mp h1 with h2 | h2
          · exact Or.inl h2
          · right
            simp only [newRows]
            rw [if_neg hc]
            have he : q.qnum = p.qnum := List.mem_singleton.mp h2
            simp [keys, applyLastOf_qnum, he]
        · right
          simp only [newRows]
          rw [if_neg hc]
          simp only [keys, List.map_cons]
          exact List.mem_cons_of_mem _ h1

theorem keys_upsert_superset (qs s : List QA) :
    ∀ q ∈ qs, q.qnum ∈ keys (upsert_questions qs s) := by
  intro q hq
  rw [upsert_decomp]
  have hk : keys (s.map (applyLastOf qs) ++ newRows qs (keys s)) =
      keys s ++ keys (newRows qs (keys s)) := by
    unfold keys
    rw [List.map_append, List.map_map]
    congr 1
    exact List.map_congr_left (fun r _ => applyLastOf_qnum qs r)
  rw [hk]
  rcases key_mem_newRows_or qs (keys s) q hq with h | h
  · exact List.mem_append_left _ h
  · exact List.mem_append_right _ h

/-! ### Claim theorem: upsert idempotence (C9) -/

/-- C9: applying the same record list twice leaves the store in exactly
the same final state as applying it once; and on a qnum conflict the four
dependent fields are overwritten in place — the row count and key sequence
are unchanged and every conflicting row carries the incoming fields. -/
theorem upsert_idempotent (qs s : List QA) :
    upsert_questions qs (upsert_questions qs s) = upsert_questions qs s ∧
    (∀ q : QA, q.qnum ∈ keys s →
      (upsertOne q s).length = s.length ∧ keys (upsertOne q s) = keys s ∧
      ∀ r ∈ upsertOne q s, r.qnum = q.qnum →
        r = ⟨r.qnum, q.question_text, q.answer_text, q.answer_value, q.answer_option⟩) := by
  constructor
  · rw [upsert_decomp qs (upsert_questions qs s)]
    rw [newRows_nil_of_subset qs _ (keys_upsert_superset qs s), List.append_nil]
    rw [upsert_decomp qs s, List.map_append]
    congr 1
    · rw [List.map_map]
      apply List.map_congr_left
      intro r _
      exact applyLastOf_idem qs r
    · rw [List.map_congr_left
        (fun r hr => newRows_fixed qs (keys s) r hr)]
      simp
  · intro q hq
    have hany : s.any (fun r => r.qnum == q.qnum) = true := any_key_iff.mpr hq
    rw [upsertOne_pos hany]
    refine ⟨by simp, keys_map_replRow q s, ?_⟩
    intro r hr hrq
    obtain ⟨r0, hr0, hrr⟩ := List.mem_map.mp hr
    by_cases he : r0.qnum = q.qnum
    · rw [← hrr]
      simp [replRow, he]
    · rw [replRow_of_ne he] at hrr
      rw [← hrr] at hrq
      exact absurd hrq he

/-- Rows used by the C9 witness. -/
def rowA : QA := ⟨1, ("qa").toList, ("aa").toList, none, none⟩

/-- Conflicting replacement row for qnum 1. -/
def rowB : QA := ⟨1, ("qb").toList, ("ab").toList, some (("b").toList), none⟩

/-- Fresh row with a new qnum. -/
def rowC : QA := ⟨2, ("qc").toList, ("ac").toList, none, none⟩

/-- C9 witness: upserting `[rowB, rowC]` over `[rowA]` twice equals once,
and the conflicting upsert of rowB keeps the row count at 1. -/
theorem upsert_idempotent_witness :
    upsert_questions [rowB, rowC] (upsert_questions [rowB, rowC] [rowA]) =
      upsert_questions [rowB, rowC] [rowA] ∧
    (upsertOne rowB [rowA]).length = 1 := by
  constructor
  · exact (upsert_idempotent [rowB, rowC] [rowA]).1
  · exact ((upsert_idempotent [rowB, rowC] [rowA]).2 rowB (by decide)).1

/-! ### Concrete evaluations of the embedding

Spot checks that the embedded pipeline reproduces the behaviour of the
source on small inputs, including the specification's grading truth
table. -/

example :
    load_random_questions [⟨7, [], [], none, none⟩] 1 (some 3) 0 =
      Except.ok [⟨7, [], [], none, none⟩] := rfl

example :
    load_random_questions ([] : List QA) 0 none 0 =
      Except.error LoadError.emptyStore := rfl

example :
    load_random_questions [⟨7, [], [], none, none⟩] (-1) none 0 =
      Except.error LoadError.sampleOutOfRange := rfl

example :
    load_random_questions [⟨7, [], [], none, none⟩, ⟨8, [], [], none, none⟩] 0 none 0 =
      Except.ok [] := rfl

example :
    upsert_questions [⟨1, ("b").toList, [], none, none⟩]
      (upsert_questions [⟨1, ("b").toList, [], none, none⟩] [⟨1, ("a").toList, [], none, none⟩]) =
    [⟨1, ("b").toList, [], none, none⟩] := by decide

example :
    parse_docx
      [("Question 1 of 2").toList, [], ("What?").toList,
       ("[+] Answer>   the correct answer is Frames (C)").toList,
       ("===============").toList, ("junk").toList] =
    [⟨1, ("What?").toList, ("   the correct answer is Frames (C)").toList,
      some (("Frames").toList), some (("C").toList)⟩] := by
  decide

example :
    parse_docx
      [("Question 1 of 2").toList, ("Q1?").toList,
       ("Question 2 of 2").toList, ("Q2?").toList,
       ("[+] Answer> the correct answer is Social Engineering (Social Engineering)").toList] =
    [⟨2, ("Q2?").toList,
      (" the correct answer is Social Engineering (Social Engineering)").toList,
      some (("Social Engineering").toList), none⟩] := by
  decide

example : normalize ((" The   SWITCH  ").toList) = ("the switch").toList := by decide

example :
    is_correct (("c").toList)
      ⟨3, [], ("x").toList, some (("DHCP").toList), some (("C").toList)⟩ false = true := by
  decide

example :
    is_correct (("DHCP").toList)
      ⟨3, [], ("x").toList, some (("DHCP").toList), some (("C").toList)⟩ false = false := by
  decide

example :
    is_correct (("MAC").toList)
      ⟨3, [], ("forwards frames based on MAC addresses").toList, none, none⟩ false = true := by
  decide

example :
    is_correct (("MA").toList)
      ⟨3, [], ("forwards frames based on MA addresses").toList, none, none⟩ false = false := by
  decide

example :
    is_correct (("red, blue").toList)
      ⟨3, ("pick colors").toList, ("x").toList, some (("Blue, Red").toList), none⟩ false = true := by
  decide

example :
    is_correct (("red, blue").toList)
      ⟨3, ("in alphabetical order").toList, ("x").toList, some (("Blue, Red").toList), none⟩
      false = false := by
  decide

end CNAB
